import Mathlib

/-!
Shallow embedding of the loyalty-stamp tracker in `src/app.py`.

The persistent `progress` table (one row per user id, keyed by
`user_id`) is modelled as a function `Store : String → Option Progress`.
Timestamps are integers (Python `int(time.time())`).  The code reads the
clock at several distinct points inside one request, so each operation
takes one parameter per clock read:
  * `te` — the read inside `ensure_user` / the first `get_status`,
  * `tc` — the read inside `can_scan` (line 102),
  * `tn` — the read `now = int(time.time())` used for the write
    (lines 184, 253, 280).
The `users` table only records a creation timestamp, is never read by
the progress logic, and is keyed by the same single user id; it is not
modelled.
-/

namespace Loyalty

/-- `TARGET_SCANS = 5` (app.py line 17). -/
def TARGET_SCANS : Int := 5

/-- `MIN_SECONDS_BETWEEN_SCANS = 30` (app.py line 19). -/
def MIN_SECONDS_BETWEEN_SCANS : Int := 30

/-- One row of the `progress` table (app.py lines 50-57), minus the
`user_id` key, which is the index of the store. -/
structure Progress where
  stamps : Int
  reward_available : Bool
  last_scan_at : Option Int
  updated_at : Int
deriving DecidableEq, Repr

/-- The `progress` table: a partial map from user id to row. -/
def Store : Type := String → Option Progress

/-- The empty database: no progress row exists yet. -/
def emptyStore : Store := fun _ => none

/-- The zeroed row inserted by `ensure_user` (app.py line 71):
`stamps=0, reward_available=0, last_scan_at=NULL, updated_at=now`. -/
def initProgress (now : Int) : Progress :=
  ⟨0, false, none, now⟩

/-- The row for `uid` after `ensure_user`: the existing row if present,
otherwise the freshly inserted zeroed row. -/
def lookupAfter (db : Store) (uid : String) (now : Int) : Progress :=
  match db uid with
  | some p => p
  | none => initProgress now

/-- `ensure_user` (app.py lines 63-74): `INSERT OR IGNORE` of the zeroed
row keyed by `uid`; rows of other users are untouched. -/
def ensure_user (db : Store) (uid : String) (now : Int) : Store :=
  fun u => if u = uid then some (lookupAfter db uid now) else db u

/-- An SQL `UPDATE progress SET ... WHERE user_id = uid`: applies `f` to
the row of `uid` when it exists, leaves everything else unchanged. -/
def updateRow (db : Store) (uid : String) (f : Progress → Progress) : Store :=
  fun u => if u = uid then (db u).map f else db u

/-- The `Status` dataclass (app.py lines 77-83). -/
structure Status where
  user_id : String
  stamps : Int
  reward_available : Bool
  last_scan_at : Option Int
deriving DecidableEq, Repr

/-- The `Status` read off a progress row (app.py lines 91-96). -/
def statusOf (uid : String) (p : Progress) : Status :=
  ⟨uid, p.stamps, p.reward_available, p.last_scan_at⟩

/-- `get_status` (app.py lines 85-96): `ensure_user` then read the row.
Returns the status together with the store after the implicit insert. -/
def get_status (db : Store) (uid : String) (now : Int) : Status × Store :=
  (statusOf uid (lookupAfter db uid now), ensure_user db uid now)

/-- `can_scan` (app.py lines 99-105), with the clock read at line 102
made an explicit parameter `now`.  Returns `(allowed, waitSeconds)`. -/
def can_scan (st : Status) (now : Int) : Bool × Int :=
  match st.last_scan_at with
  | none => (true, 0)
  | some t =>
    let elapsed := now - t
    if MIN_SECONDS_BETWEEN_SCANS ≤ elapsed then (true, 0)
    else (false, MIN_SECONDS_BETWEEN_SCANS - elapsed)

/-- The message variants of the `/scan` handler (app.py lines 177, 200,
218, 220). -/
inductive ScanMsg where
  | tooSoon (wait : Int)
  | alreadyReward
  | rewardUnlocked
  | stampRecorded (remaining : Int)
deriving DecidableEq, Repr

/-- Outcome rendered by the `/scan` handler: the `ok` flag, the wait in
seconds (0 when accepted), the status shown, and the message variant. -/
structure ScanResult where
  ok : Bool
  wait : Int
  status : Status
  msg : ScanMsg
deriving DecidableEq, Repr

/-- The `/scan` handler (app.py lines 165-232).  `te` is the clock read
used by the initial `get_status`, `tc` the one inside `can_scan`, `tn`
the `now` of line 184 (also passed to the final re-read `get_status`,
where it is only used for the no-op `ensure_user`). -/
def scan (db : Store) (uid : String) (te tc tn : Int) : Store × ScanResult :=
  let s1 := get_status db uid te
  let st := s1.1
  let db1 := s1.2
  let c := can_scan st tc
  if c.1 = false then
    (db1, ⟨false, c.2, st, ScanMsg.tooSoon c.2⟩)
  else if st.reward_available = true then
    let db2 := updateRow db1 uid fun p =>
      { p with last_scan_at := some tn, updated_at := tn }
    let s2 := get_status db2 uid tn
    (s2.2, ⟨true, 0, s2.1, ScanMsg.alreadyReward⟩)
  else
    let new_stamps := st.stamps + 1
    let reward := decide (TARGET_SCANS ≤ new_stamps)
    let db2 := updateRow db1 uid fun _ =>
      ⟨if reward = true then TARGET_SCANS else new_stamps, reward, some tn, tn⟩
    let s2 := get_status db2 uid tn
    (s2.2, ⟨true, 0, s2.1,
      if s2.1.reward_available = true then ScanMsg.rewardUnlocked
      else ScanMsg.stampRecorded (TARGET_SCANS - s2.1.stamps)⟩)

/-- Outcome rendered by the `/redeem` handler. -/
structure RedeemResult where
  ok : Bool
  status : Status
deriving DecidableEq, Repr

/-- The `/redeem` handler (app.py lines 235-272).  `te` is the clock
read of the initial `get_status`, `tn` the `now` of line 253. -/
def redeem (db : Store) (uid : String) (te tn : Int) : Store × RedeemResult :=
  let s1 := get_status db uid te
  if s1.1.reward_available = false then
    (s1.2, ⟨false, s1.1⟩)
  else
    let db2 := updateRow s1.2 uid fun p =>
      { p with stamps := 0, reward_available := false, updated_at := tn }
    let s2 := get_status db2 uid tn
    (s2.2, ⟨true, s2.1⟩)

/-- The `/admin/reset` handler (app.py lines 275-287): `ensure_user`
then zero the row. -/
def admin_reset (db : Store) (uid : String) (te tn : Int) : Store :=
  updateRow (ensure_user db uid te) uid fun p =>
    { p with stamps := 0, reward_available := false,
             last_scan_at := none, updated_at := tn }

/-- One request against the tracker: which handler runs, for which user,
and the timestamps of its clock reads. -/
inductive Op where
  | opStatus (uid : String) (t : Int)
  | opScan (uid : String) (te tc tn : Int)
  | opRedeem (uid : String) (te tn : Int)
  | opReset (uid : String) (te tn : Int)
deriving DecidableEq, Repr

/-- The store after one request. -/
def step (db : Store) : Op → Store
  | .opStatus uid t => (get_status db uid t).2
  | .opScan uid te tc tn => (scan db uid te tc tn).1
  | .opRedeem uid te tn => (redeem db uid te tn).1
  | .opReset uid te tn => admin_reset db uid te tn

/-- The store after a finite sequence of requests. -/
def run (db : Store) : List Op → Store
  | [] => db
  | op :: ops => run (step db op) ops

end Loyalty

namespace Loyalty

/-! ### Basic lemmas about the store operations -/

theorem lookupAfter_of_some {db : Store} {uid : String} {p : Progress} (t : Int)
    (h : db uid = some p) : lookupAfter db uid t = p := by
  unfold lookupAfter; rw [h]

theorem ensure_user_apply (db : Store) (uid : String) (t : Int) :
    ensure_user db uid t uid = some (lookupAfter db uid t) := by
  unfold ensure_user; simp

theorem ensure_user_other {v uid : String} (db : Store) (t : Int) (h : v ≠ uid) :
    ensure_user db uid t v = db v := by
  unfold ensure_user; simp [h]

theorem ensure_user_of_some {db : Store} {uid : String} {p : Progress} (t : Int)
    (h : db uid = some p) : ensure_user db uid t = db := by
  funext u
  unfold ensure_user
  by_cases hu : u = uid
  · subst hu; rw [if_pos rfl, lookupAfter_of_some t h, h]
  · rw [if_neg hu]

theorem updateRow_apply (db : Store) (uid : String) (f : Progress → Progress) :
    updateRow db uid f uid = (db uid).map f := by
  unfold updateRow; simp

theorem updateRow_other {v uid : String} (db : Store) (f : Progress → Progress)
    (h : v ≠ uid) : updateRow db uid f v = db v := by
  unfold updateRow; simp [h]

/-! ### The data-model invariant -/

/-- The invariant of a single progress row: `stamps ∈ [0, TARGET_SCANS]`
and the reward flag is set exactly when the target is reached. -/
def GoodRow (p : Progress) : Prop :=
  0 ≤ p.stamps ∧ p.stamps ≤ TARGET_SCANS ∧
    (p.reward_available = true ↔ p.stamps = TARGET_SCANS)

/-- Every row present in the store satisfies `GoodRow`. -/
def Inv (db : Store) : Prop :=
  ∀ u p, db u = some p → GoodRow p

theorem goodRow_init (t : Int) : GoodRow (initProgress t) := by
  refine ⟨le_refl 0, ?_, ?_⟩ <;> simp [initProgress, TARGET_SCANS]

theorem inv_empty : Inv emptyStore := by
  intro u p hp
  simp [emptyStore] at hp

theorem goodRow_lookupAfter {db : Store} (uid : String) (t : Int)
    (h : Inv db) : GoodRow (lookupAfter db uid t) := by
  unfold lookupAfter
  cases hd : db uid with
  | some p => exact h uid p hd
  | none => exact goodRow_init t

theorem inv_ensure_user {db : Store} (uid : String) (t : Int)
    (h : Inv db) : Inv (ensure_user db uid t) := by
  intro u p hp
  by_cases hu : u = uid
  · subst hu
    rw [ensure_user_apply] at hp
    cases hp
    exact goodRow_lookupAfter _ t h
  · rw [ensure_user_other db t hu] at hp
    exact h u p hp

theorem inv_updateRow {db : Store} {f : Progress → Progress} (uid : String)
    (hf : ∀ p, GoodRow p → GoodRow (f p)) (h : Inv db) :
    Inv (updateRow db uid f) := by
  intro u p hp
  by_cases hu : u = uid
  · subst hu
    rw [updateRow_apply] at hp
    cases hd : db u with
    | some q =>
      rw [hd] at hp
      simp only [Option.map_some'] at hp
      cases hp
      exact hf q (h u q hd)
    | none => rw [hd] at hp; simp at hp
  · rw [updateRow_other db f hu] at hp
    exact h u p hp

end Loyalty

namespace Loyalty

/-! ### Equation lemmas: one per control-flow branch of the handlers -/

theorem scan_eq_denied {db : Store} {uid : String} {te tc tn : Int}
    (hc : (can_scan (statusOf uid (lookupAfter db uid te)) tc).1 = false) :
    scan db uid te tc tn =
      (ensure_user db uid te,
       ⟨false, (can_scan (statusOf uid (lookupAfter db uid te)) tc).2,
        statusOf uid (lookupAfter db uid te),
        ScanMsg.tooSoon (can_scan (statusOf uid (lookupAfter db uid te)) tc).2⟩) := by
  simp only [scan, get_status, hc, if_true, if_pos rfl]

theorem scan_eq_reward {db : Store} {uid : String} {te tc tn : Int}
    (hc : (can_scan (statusOf uid (lookupAfter db uid te)) tc).1 = true)
    (hr : (lookupAfter db uid te).reward_available = true) :
    scan db uid te tc tn =
      (updateRow (ensure_user db uid te) uid fun p =>
        { p with last_scan_at := some tn, updated_at := tn },
       ⟨true, 0,
        statusOf uid
          { lookupAfter db uid te with last_scan_at := some tn, updated_at := tn },
        ScanMsg.alreadyReward⟩) := by
  have hq2 : (updateRow (ensure_user db uid te) uid fun p =>
      { p with last_scan_at := some tn, updated_at := tn }) uid =
      some { lookupAfter db uid te with last_scan_at := some tn, updated_at := tn } := by
    rw [updateRow_apply, ensure_user_apply]; rfl
  simp only [scan, get_status]
  rw [if_neg (by rw [hc]; simp)]
  rw [if_pos (by simp [statusOf, hr])]
  rw [lookupAfter_of_some tn hq2, ensure_user_of_some tn hq2]

theorem scan_eq_stamp {db : Store} {uid : String} {te tc tn : Int}
    (hc : (can_scan (statusOf uid (lookupAfter db uid te)) tc).1 = true)
    (hr : (lookupAfter db uid te).reward_available = false) :
    scan db uid te tc tn =
      (updateRow (ensure_user db uid te) uid fun _ =>
        ⟨if decide (TARGET_SCANS ≤ (lookupAfter db uid te).stamps + 1) = true
            then TARGET_SCANS else (lookupAfter db uid te).stamps + 1,
         decide (TARGET_SCANS ≤ (lookupAfter db uid te).stamps + 1), some tn, tn⟩,
       ⟨true, 0,
        statusOf uid
          ⟨if decide (TARGET_SCANS ≤ (lookupAfter db uid te).stamps + 1) = true
              then TARGET_SCANS else (lookupAfter db uid te).stamps + 1,
           decide (TARGET_SCANS ≤ (lookupAfter db uid te).stamps + 1), some tn, tn⟩,
        if decide (TARGET_SCANS ≤ (lookupAfter db uid te).stamps + 1) = true
          then ScanMsg.rewardUnlocked
          else ScanMsg.stampRecorded (TARGET_SCANS -
            (if decide (TARGET_SCANS ≤ (lookupAfter db uid te).stamps + 1) = true
              then TARGET_SCANS else (lookupAfter db uid te).stamps + 1))⟩) := by
  have hq2 : (updateRow (ensure_user db uid te) uid fun _ =>
      (⟨if decide (TARGET_SCANS ≤ (lookupAfter db uid te).stamps + 1) = true
          then TARGET_SCANS else (lookupAfter db uid te).stamps + 1,
        decide (TARGET_SCANS ≤ (lookupAfter db uid te).stamps + 1), some tn, tn⟩ : Progress)) uid =
      some ⟨if decide (TARGET_SCANS ≤ (lookupAfter db uid te).stamps + 1) = true
          then TARGET_SCANS else (lookupAfter db uid te).stamps + 1,
        decide (TARGET_SCANS ≤ (lookupAfter db uid te).stamps + 1), some tn, tn⟩ := by
    rw [updateRow_apply, ensure_user_apply]; rfl
  simp only [scan, get_status]
  rw [if_neg (by rw [hc]; simp)]
  rw [if_neg (by simp [statusOf, hr])]
  simp only [statusOf]
  rw [lookupAfter_of_some tn hq2, ensure_user_of_some tn hq2]

theorem redeem_eq_noreward {db : Store} {uid : String} {te tn : Int}
    (hr : (lookupAfter db uid te).reward_available = false) :
    redeem db uid te tn =
      (ensure_user db uid te, ⟨false, statusOf uid (lookupAfter db uid te)⟩) := by
  simp only [redeem, get_status]
  rw [if_pos (by simp [statusOf, hr])]

theorem redeem_eq_reward {db : Store} {uid : String} {te tn : Int}
    (hr : (lookupAfter db uid te).reward_available = true) :
    redeem db uid te tn =
      (updateRow (ensure_user db uid te) uid fun p =>
        { p with stamps := 0, reward_available := false, updated_at := tn },
       ⟨true,
        statusOf uid
          { lookupAfter db uid te with
              stamps := 0, reward_available := false, updated_at := tn }⟩) := by
  have hq2 : (updateRow (ensure_user db uid te) uid fun p =>
      { p with stamps := 0, reward_available := false, updated_at := tn }) uid =
      some { lookupAfter db uid te with
        stamps := 0, reward_available := false, updated_at := tn } := by
    rw [updateRow_apply, ensure_user_apply]; rfl
  simp only [redeem, get_status]
  rw [if_neg (by simp [statusOf, hr])]
  rw [lookupAfter_of_some tn hq2, ensure_user_of_some tn hq2]

theorem admin_reset_apply (db : Store) (uid : String) (te tn : Int) :
    admin_reset db uid te tn uid = some ⟨0, false, none, tn⟩ := by
  unfold admin_reset
  rw [updateRow_apply, ensure_user_apply]
  rfl

end Loyalty

namespace Loyalty

/-! ### Preservation of the invariant by every handler -/

theorem goodRow_scanRow {q : Progress} (tn : Int) (hq : GoodRow q) :
    GoodRow ⟨if decide (TARGET_SCANS ≤ q.stamps + 1) = true
        then TARGET_SCANS else q.stamps + 1,
      decide (TARGET_SCANS ≤ q.stamps + 1), some tn, tn⟩ := by
  obtain ⟨h0, h5, hiff⟩ := hq
  unfold GoodRow
  by_cases hd : TARGET_SCANS ≤ q.stamps + 1
  · rw [decide_eq_true hd, if_pos rfl]
    refine ⟨?_, le_refl _, by simp⟩
    unfold TARGET_SCANS
    norm_num
  · rw [decide_eq_false hd, if_neg (by simp)]
    refine ⟨?_, ?_, ?_⟩
    · show (0:Int) ≤ q.stamps + 1
      omega
    · show q.stamps + 1 ≤ TARGET_SCANS
      unfold TARGET_SCANS at hd ⊢
      omega
    · show false = true ↔ q.stamps + 1 = TARGET_SCANS
      simp only [Bool.false_eq_true, false_iff]
      unfold TARGET_SCANS at hd ⊢
      omega

theorem inv_get_status {db : Store} (uid : String) (t : Int) (h : Inv db) :
    Inv (get_status db uid t).2 :=
  inv_ensure_user uid t h

theorem inv_scan {db : Store} (uid : String) (te tc tn : Int) (h : Inv db) :
    Inv (scan db uid te tc tn).1 := by
  by_cases hc : (can_scan (statusOf uid (lookupAfter db uid te)) tc).1 = false
  · rw [scan_eq_denied hc]
    exact inv_ensure_user uid te h
  · have hc' : (can_scan (statusOf uid (lookupAfter db uid te)) tc).1 = true := by
      revert hc
      cases (can_scan (statusOf uid (lookupAfter db uid te)) tc).1 <;> simp
    by_cases hr : (lookupAfter db uid te).reward_available = true
    · rw [scan_eq_reward hc' hr]
      exact inv_updateRow uid (fun p hp => ⟨hp.1, hp.2.1, hp.2.2⟩)
        (inv_ensure_user uid te h)
    · have hr' : (lookupAfter db uid te).reward_available = false := by
        revert hr
        cases (lookupAfter db uid te).reward_available <;> simp
      rw [scan_eq_stamp hc' hr']
      exact inv_updateRow uid
        (fun p _ => goodRow_scanRow tn (goodRow_lookupAfter uid te h))
        (inv_ensure_user uid te h)

theorem inv_redeem {db : Store} (uid : String) (te tn : Int) (h : Inv db) :
    Inv (redeem db uid te tn).1 := by
  by_cases hr : (lookupAfter db uid te).reward_available = false
  · rw [redeem_eq_noreward hr]
    exact inv_ensure_user uid te h
  · have hr' : (lookupAfter db uid te).reward_available = true := by
      revert hr
      cases (lookupAfter db uid te).reward_available <;> simp
    rw [redeem_eq_reward hr']
    refine inv_updateRow uid (fun p _ => ?_) (inv_ensure_user uid te h)
    refine ⟨le_refl 0, ?_, ?_⟩ <;> simp [TARGET_SCANS]

theorem inv_admin_reset {db : Store} (uid : String) (te tn : Int) (h : Inv db) :
    Inv (admin_reset db uid te tn) := by
  unfold admin_reset
  refine inv_updateRow uid (fun p _ => ?_) (inv_ensure_user uid te h)
  refine ⟨le_refl 0, ?_, ?_⟩ <;> simp [TARGET_SCANS]

theorem inv_step {db : Store} (op : Op) (h : Inv db) : Inv (step db op) := by
  cases op with
  | opStatus uid t => exact inv_get_status uid t h
  | opScan uid te tc tn => exact inv_scan uid te tc tn h
  | opRedeem uid te tn => exact inv_redeem uid te tn h
  | opReset uid te tn => exact inv_admin_reset uid te tn h

theorem inv_run {db : Store} (ops : List Op) (h : Inv db) : Inv (run db ops) := by
  induction ops generalizing db with
  | nil => exact h
  | cons op ops ih => exact ih (inv_step op h)

end Loyalty

namespace Loyalty

/-! ### Further helper lemmas -/

theorem updateRow_ensure_apply (db : Store) (uid : String) (t : Int)
    (f : Progress → Progress) :
    updateRow (ensure_user db uid t) uid f uid = some (f (lookupAfter db uid t)) := by
  rw [updateRow_apply, ensure_user_apply]
  rfl

theorem can_scan_allowed_of_some {st : Status} {now t0 : Int}
    (hl : st.last_scan_at = some t0) (hc : (can_scan st now).1 = true) :
    MIN_SECONDS_BETWEEN_SCANS ≤ now - t0 := by
  by_contra hd
  simp only [can_scan, hl] at hc
  rw [if_neg hd] at hc
  simp at hc

/-! ### The claims -/

/-- C1: for every user and every finite sequence of operations
(getStatus, recordScan, redeem, reset) starting from the zeroed initial
Progress record (rows are created zeroed on first reference from the
empty database), the `stamps` field stays within `[0, TARGET_SCANS]`
after each operation. -/
theorem C1_stamps_in_range (ops : List Op) (u : String) (p : Progress)
    (h : run emptyStore ops u = some p) :
    0 ≤ p.stamps ∧ p.stamps ≤ TARGET_SCANS :=
  ⟨(inv_run ops inv_empty u p h).1, (inv_run ops inv_empty u p h).2.1⟩

theorem C1_stamps_in_range_witness :
    run emptyStore [Op.opScan "a" 0 0 0] "a" = some ⟨1, false, some 0, 0⟩ ∧
    (0 ≤ (⟨1, false, some 0, 0⟩ : Progress).stamps ∧
      (⟨1, false, some 0, 0⟩ : Progress).stamps ≤ TARGET_SCANS) :=
  ⟨by decide, C1_stamps_in_range [Op.opScan "a" 0 0 0] "a" ⟨1, false, some 0, 0⟩ (by decide)⟩

/-- C2: for every user and every finite sequence of operations starting
from the zeroed initial Progress record, after each operation
`rewardAvailable` is true if and only if `stamps = TARGET_SCANS`. -/
theorem C2_reward_iff_target (ops : List Op) (u : String) (p : Progress)
    (h : run emptyStore ops u = some p) :
    p.reward_available = true ↔ p.stamps = TARGET_SCANS :=
  (inv_run ops inv_empty u p h).2.2

theorem C2_reward_iff_target_witness :
    run emptyStore [Op.opScan "a" 0 0 0, Op.opScan "a" 40 40 40,
      Op.opScan "a" 80 80 80, Op.opScan "a" 120 120 120,
      Op.opScan "a" 160 160 160] "a" = some ⟨5, true, some 160, 160⟩ ∧
    ((⟨5, true, some 160, 160⟩ : Progress).reward_available = true ↔
      (⟨5, true, some 160, 160⟩ : Progress).stamps = TARGET_SCANS) :=
  ⟨by decide,
   C2_reward_iff_target [Op.opScan "a" 0 0 0, Op.opScan "a" 40 40 40,
      Op.opScan "a" 80 80 80, Op.opScan "a" 120 120 120,
      Op.opScan "a" 160 160 160] "a" ⟨5, true, some 160, 160⟩ (by decide)⟩

/-- C3: `can_scan` allows when `lastScanAt` is absent; otherwise, with
`elapsed = now - lastScanAt`, it allows iff
`elapsed ≥ MIN_SECONDS_BETWEEN_SCANS`, returns
`waitSeconds = MIN_SECONDS_BETWEEN_SCANS - elapsed` when denied, and a
scan exactly at 30 seconds of elapsed time is accepted. -/
theorem C3_can_scan_spec (st : Status) (now : Int) :
    (st.last_scan_at = none → can_scan st now = (true, 0)) ∧
    (∀ t0, st.last_scan_at = some t0 →
      ((can_scan st now).1 = true ↔ MIN_SECONDS_BETWEEN_SCANS ≤ now - t0) ∧
      ((can_scan st now).1 = false →
        (can_scan st now).2 = MIN_SECONDS_BETWEEN_SCANS - (now - t0)) ∧
      (now - t0 = MIN_SECONDS_BETWEEN_SCANS → (can_scan st now).1 = true)) := by
  constructor
  · intro h
    simp only [can_scan, h]
  · intro t0 h
    simp only [can_scan, h]
    by_cases hd : MIN_SECONDS_BETWEEN_SCANS ≤ now - t0
    · rw [if_pos hd]
      exact ⟨by simp [hd], by simp, fun _ => rfl⟩
    · rw [if_neg hd]
      refine ⟨by simp [hd], fun _ => rfl, ?_⟩
      intro he
      exact absurd (le_of_eq he.symm) hd

theorem C3_can_scan_spec_witness :
    can_scan ⟨"a", 0, false, none⟩ 7 = (true, 0) ∧
    (can_scan ⟨"a", 3, false, some 0⟩ 30).1 = true ∧
    (can_scan ⟨"a", 3, false, some 0⟩ 10).2 =
      MIN_SECONDS_BETWEEN_SCANS - (10 - 0) := by
  refine ⟨(C3_can_scan_spec ⟨"a", 0, false, none⟩ 7).1 rfl, ?_, ?_⟩
  · exact ((C3_can_scan_spec ⟨"a", 3, false, some 0⟩ 30).2 0 rfl).2.2 (by decide)
  · exact ((C3_can_scan_spec ⟨"a", 3, false, some 0⟩ 10).2 0 rfl).2.1 (by decide)

end Loyalty

namespace Loyalty

/-- Concrete store used by witnesses: user "a" mid-accrual, no reward. -/
def dbA : Store :=
  fun u => if u = "a" then some ⟨3, false, some 100, 100⟩ else none

/-- Concrete store used by witnesses: user "a" with the reward unlocked. -/
def dbR : Store :=
  fun u => if u = "a" then some ⟨5, true, some 100, 100⟩ else none

/-- C4: a scan inside the cooldown window is rejected: the store is
unchanged (no field of the Progress row mutates), the handler reports
`ok = false` with the unchanged status, and the returned `waitSeconds`
is strictly positive. -/
theorem C4_denied_scan_no_mutation (db : Store) (uid : String)
    (te tc tn t0 : Int) (p : Progress)
    (hp : db uid = some p) (hl : p.last_scan_at = some t0)
    (hsoon : tc - t0 < MIN_SECONDS_BETWEEN_SCANS) :
    (scan db uid te tc tn).1 = db ∧
    (scan db uid te tc tn).2.ok = false ∧
    (scan db uid te tc tn).2.status = statusOf uid p ∧
    0 < (scan db uid te tc tn).2.wait := by
  have hq : lookupAfter db uid te = p := lookupAfter_of_some te hp
  have hcs : can_scan (statusOf uid (lookupAfter db uid te)) tc =
      (false, MIN_SECONDS_BETWEEN_SCANS - (tc - t0)) := by
    rw [hq]
    simp only [can_scan, statusOf, hl]
    rw [if_neg (not_le.mpr hsoon)]
  have hc : (can_scan (statusOf uid (lookupAfter db uid te)) tc).1 = false := by
    rw [hcs]
  rw [scan_eq_denied hc]
  refine ⟨ensure_user_of_some te hp, rfl, ?_, ?_⟩
  · show statusOf uid (lookupAfter db uid te) = statusOf uid p
    rw [hq]
  · show 0 < (can_scan (statusOf uid (lookupAfter db uid te)) tc).2
    rw [hcs]
    show 0 < MIN_SECONDS_BETWEEN_SCANS - (tc - t0)
    unfold MIN_SECONDS_BETWEEN_SCANS at hsoon ⊢
    omega

theorem C4_denied_scan_no_mutation_witness :
    (scan dbA "a" 110 110 110).1 = dbA ∧
    (scan dbA "a" 110 110 110).2.ok = false ∧
    (scan dbA "a" 110 110 110).2.status = statusOf "a" ⟨3, false, some 100, 100⟩ ∧
    0 < (scan dbA "a" 110 110 110).2.wait :=
  C4_denied_scan_no_mutation dbA "a" 110 110 110 100
    ⟨3, false, some 100, 100⟩ rfl rfl (by decide)

/-- C5: when the reward is already available and the cooldown allows the
scan, the handler updates only `lastScanAt` and `updatedAt` (both to
`now`); `stamps` and `rewardAvailable` are unchanged, no stamp is
added. -/
theorem C5_scan_with_reward (db : Store) (uid : String) (te tc tn : Int)
    (p : Progress) (hp : db uid = some p) (hr : p.reward_available = true)
    (hok : (can_scan (statusOf uid p) tc).1 = true) :
    (scan db uid te tc tn).1 uid =
      some ⟨p.stamps, p.reward_available, some tn, tn⟩ := by
  have hq : lookupAfter db uid te = p := lookupAfter_of_some te hp
  have hc : (can_scan (statusOf uid (lookupAfter db uid te)) tc).1 = true := by
    rw [hq]; exact hok
  have hr' : (lookupAfter db uid te).reward_available = true := by
    rw [hq]; exact hr
  rw [scan_eq_reward hc hr']
  show updateRow (ensure_user db uid te) uid
      (fun p => { p with last_scan_at := some tn, updated_at := tn }) uid = _
  rw [updateRow_ensure_apply, hq]

theorem C5_scan_with_reward_witness :
    (scan dbR "a" 140 140 141).1 "a" = some ⟨5, true, some 141, 141⟩ :=
  C5_scan_with_reward dbR "a" 140 140 141 ⟨5, true, some 100, 100⟩
    rfl rfl (by decide)

/-- C6: redeeming with `rewardAvailable = false` performs no mutation
and returns the unchanged status; redeeming with `rewardAvailable =
true` sets `stamps = 0`, `rewardAvailable = false`, `updatedAt = now`
in a single row update and leaves `lastScanAt` untouched. -/
theorem C6_redeem_spec (db : Store) (uid : String) (te tn : Int)
    (p : Progress) (hp : db uid = some p) :
    (p.reward_available = false →
      (redeem db uid te tn).1 = db ∧
      (redeem db uid te tn).2 = ⟨false, statusOf uid p⟩) ∧
    (p.reward_available = true →
      (redeem db uid te tn).1 uid = some ⟨0, false, p.last_scan_at, tn⟩) := by
  have hq : lookupAfter db uid te = p := lookupAfter_of_some te hp
  constructor
  · intro hr
    have hr' : (lookupAfter db uid te).reward_available = false := by
      rw [hq]; exact hr
    rw [redeem_eq_noreward hr']
    refine ⟨ensure_user_of_some te hp, ?_⟩
    show (⟨false, statusOf uid (lookupAfter db uid te)⟩ : RedeemResult) = _
    rw [hq]
  · intro hr
    have hr' : (lookupAfter db uid te).reward_available = true := by
      rw [hq]; exact hr
    rw [redeem_eq_reward hr']
    show updateRow (ensure_user db uid te) uid
        (fun p =>
          { p with stamps := 0, reward_available := false, updated_at := tn })
        uid = _
    rw [updateRow_ensure_apply, hq]

theorem C6_redeem_spec_witness :
    ((redeem dbA "a" 140 141).1 = dbA ∧
     (redeem dbA "a" 140 141).2 = ⟨false, statusOf "a" ⟨3, false, some 100, 100⟩⟩) ∧
    (redeem dbR "a" 140 141).1 "a" = some ⟨0, false, some 100, 141⟩ :=
  ⟨(C6_redeem_spec dbA "a" 140 141 ⟨3, false, some 100, 100⟩ rfl).1 rfl,
   (C6_redeem_spec dbR "a" 140 141 ⟨5, true, some 100, 100⟩ rfl).2 rfl⟩

/-- C7: the administrative reset unconditionally sets `stamps = 0`,
`rewardAvailable = false`, `lastScanAt = absent` and `updatedAt = now`,
for every prior state of the store; it has no preconditions. -/
theorem C7_reset_spec (db : Store) (uid : String) (te tn : Int) :
    admin_reset db uid te tn uid = some ⟨0, false, none, tn⟩ :=
  admin_reset_apply db uid te tn

end Loyalty

namespace Loyalty

/-- C8: in normal operation (scan or redeem, not the administrative
reset), `lastScanAt` never moves backward: a denied scan and a redeem
leave it unchanged, and an accepted scan sets it to `now`, which is at
least the previous `lastScanAt` plus `MIN_SECONDS_BETWEEN_SCANS`
(assuming the clock reads inside one request are monotone, `tc ≤ tn`). -/
theorem C8_last_scan_monotone (db : Store) (uid : String)
    (te tc tn t0 : Int) (p : Progress)
    (hp : db uid = some p) (hl : p.last_scan_at = some t0) (htc : tc ≤ tn) :
    (∃ q, (scan db uid te tc tn).1 uid = some q ∧
      ∃ t1, q.last_scan_at = some t1 ∧ t0 ≤ t1 ∧
        ((scan db uid te tc tn).2.ok = false → t1 = t0) ∧
        ((scan db uid te tc tn).2.ok = true →
          t1 = tn ∧ t0 + MIN_SECONDS_BETWEEN_SCANS ≤ tn)) ∧
    (∃ r, (redeem db uid te tn).1 uid = some r ∧ r.last_scan_at = some t0) := by
  have hq : lookupAfter db uid te = p := lookupAfter_of_some te hp
  constructor
  · by_cases hc : (can_scan (statusOf uid (lookupAfter db uid te)) tc).1 = false
    · rw [scan_eq_denied hc]
      refine ⟨p, ?_, t0, hl, le_refl t0, fun _ => rfl, ?_⟩
      · show ensure_user db uid te uid = some p
        rw [ensure_user_apply, hq]
      · intro hok
        simp at hok
    · have hc' : (can_scan (statusOf uid (lookupAfter db uid te)) tc).1 = true := by
        revert hc
        cases (can_scan (statusOf uid (lookupAfter db uid te)) tc).1 <;> simp
      have hl' : (statusOf uid (lookupAfter db uid te)).last_scan_at = some t0 := by
        rw [hq]; exact hl
      have helapsed : MIN_SECONDS_BETWEEN_SCANS ≤ tc - t0 :=
        can_scan_allowed_of_some hl' hc'
      have ht0 : t0 ≤ tn ∧ t0 + MIN_SECONDS_BETWEEN_SCANS ≤ tn := by
        unfold MIN_SECONDS_BETWEEN_SCANS at helapsed ⊢
        omega
      by_cases hr : (lookupAfter db uid te).reward_available = true
      · rw [scan_eq_reward hc' hr]
        refine ⟨{ lookupAfter db uid te with
            last_scan_at := some tn, updated_at := tn }, ?_, tn, rfl, ht0.1, ?_, ?_⟩
        · exact updateRow_ensure_apply db uid te _
        · intro hok
          simp at hok
        · intro _
          exact ⟨rfl, ht0.2⟩
      · have hr' : (lookupAfter db uid te).reward_available = false := by
          revert hr
          cases (lookupAfter db uid te).reward_available <;> simp
        rw [scan_eq_stamp hc' hr']
        refine ⟨⟨if decide (TARGET_SCANS ≤ (lookupAfter db uid te).stamps + 1) = true
              then TARGET_SCANS else (lookupAfter db uid te).stamps + 1,
            decide (TARGET_SCANS ≤ (lookupAfter db uid te).stamps + 1),
            some tn, tn⟩, ?_, tn, rfl, ht0.1, ?_, ?_⟩
        · exact updateRow_ensure_apply db uid te _
        · intro hok
          simp at hok
        · intro _
          exact ⟨rfl, ht0.2⟩
  · by_cases hr : (lookupAfter db uid te).reward_available = false
    · rw [redeem_eq_noreward hr]
      refine ⟨p, ?_, hl⟩
      show ensure_user db uid te uid = some p
      rw [ensure_user_apply, hq]
    · have hr' : (lookupAfter db uid te).reward_available = true := by
        revert hr
        cases (lookupAfter db uid te).reward_available <;> simp
      rw [redeem_eq_reward hr']
      refine ⟨{ lookupAfter db uid te with
          stamps := 0, reward_available := false, updated_at := tn }, ?_, ?_⟩
      · exact updateRow_ensure_apply db uid te _
      · show (lookupAfter db uid te).last_scan_at = some t0
        rw [hq]
        exact hl

theorem C8_last_scan_monotone_witness :
    (∃ q, (scan dbA "a" 140 140 141).1 "a" = some q ∧
      ∃ t1, q.last_scan_at = some t1 ∧ (100 : Int) ≤ t1 ∧
        ((scan dbA "a" 140 140 141).2.ok = false → t1 = 100) ∧
        ((scan dbA "a" 140 140 141).2.ok = true →
          t1 = 141 ∧ (100 : Int) + MIN_SECONDS_BETWEEN_SCANS ≤ 141)) ∧
    (∃ r, (redeem dbA "a" 140 141).1 "a" = some r ∧ r.last_scan_at = some 100) :=
  C8_last_scan_monotone dbA "a" 140 140 141 100
    ⟨3, false, some 100, 100⟩ rfl rfl (by decide)

/-- C9: `get_status` creates a zeroed row when none exists, and is
idempotent: a second call on the resulting store changes nothing and
returns the same status, so `get_status` composed with itself equals a
single `get_status`. -/
theorem C9_get_status_idempotent (db : Store) (uid : String) (t1 t2 : Int) :
    (db uid = none →
      (get_status db uid t1).2 uid = some (initProgress t1) ∧
      (get_status db uid t1).1 = ⟨uid, 0, false, none⟩) ∧
    get_status (get_status db uid t1).2 uid t2 = get_status db uid t1 := by
  constructor
  · intro h
    constructor
    · show ensure_user db uid t1 uid = some (initProgress t1)
      rw [ensure_user_apply]
      unfold lookupAfter
      rw [h]
    · show statusOf uid (lookupAfter db uid t1) = _
      unfold lookupAfter
      rw [h]
      rfl
  · have hq : (get_status db uid t1).2 uid = some (lookupAfter db uid t1) :=
      ensure_user_apply db uid t1
    show (statusOf uid (lookupAfter (get_status db uid t1).2 uid t2),
        ensure_user (get_status db uid t1).2 uid t2) = get_status db uid t1
    rw [lookupAfter_of_some t2 hq, ensure_user_of_some t2 hq]
    rfl

theorem C9_get_status_idempotent_witness :
    ((get_status emptyStore "a" 3).2 "a" = some (initProgress 3) ∧
     (get_status emptyStore "a" 3).1 = ⟨"a", 0, false, none⟩) ∧
    get_status (get_status emptyStore "a" 3).2 "a" 9 = get_status emptyStore "a" 3 :=
  ⟨(C9_get_status_idempotent emptyStore "a" 3 9).1 rfl,
   (C9_get_status_idempotent emptyStore "a" 3 9).2⟩

/-- C10: every handler invoked with user id `uid` leaves the Progress
row of every other user id `v` unchanged: all inserts and updates are
keyed to the single supplied user id. -/
theorem C10_frame_other_users (db : Store) (uid v : String)
    (t te tc tn : Int) (hne : v ≠ uid) :
    (get_status db uid t).2 v = db v ∧
    (scan db uid te tc tn).1 v = db v ∧
    (redeem db uid te tn).1 v = db v ∧
    admin_reset db uid te tn v = db v := by
  refine ⟨ensure_user_other db t hne, ?_, ?_, ?_⟩
  · by_cases hc : (can_scan (statusOf uid (lookupAfter db uid te)) tc).1 = false
    · rw [scan_eq_denied hc]
      exact ensure_user_other db te hne
    · have hc' : (can_scan (statusOf uid (lookupAfter db uid te)) tc).1 = true := by
        revert hc
        cases (can_scan (statusOf uid (lookupAfter db uid te)) tc).1 <;> simp
      by_cases hr : (lookupAfter db uid te).reward_available = true
      · rw [scan_eq_reward hc' hr]
        show updateRow (ensure_user db uid te) uid _ v = db v
        rw [updateRow_other _ _ hne, ensure_user_other db te hne]
      · have hr' : (lookupAfter db uid te).reward_available = false := by
          revert hr
          cases (lookupAfter db uid te).reward_available <;> simp
        rw [scan_eq_stamp hc' hr']
        show updateRow (ensure_user db uid te) uid _ v = db v
        rw [updateRow_other _ _ hne, ensure_user_other db te hne]
  · by_cases hr : (lookupAfter db uid te).reward_available = false
    · rw [redeem_eq_noreward hr]
      exact ensure_user_other db te hne
    · have hr' : (lookupAfter db uid te).reward_available = true := by
        revert hr
        cases (lookupAfter db uid te).reward_available <;> simp
      rw [redeem_eq_reward hr']
      show updateRow (ensure_user db uid te) uid _ v = db v
      rw [updateRow_other _ _ hne, ensure_user_other db te hne]
  · unfold admin_reset
    rw [updateRow_other _ _ hne, ensure_user_other db te hne]

theorem C10_frame_other_users_witness :
    (get_status dbA "a" 7).2 "b" = dbA "b" ∧
    (scan dbA "a" 140 140 141).1 "b" = dbA "b" ∧
    (redeem dbA "a" 140 141).1 "b" = dbA "b" ∧
    admin_reset dbA "a" 140 141 "b" = dbA "b" :=
  C10_frame_other_users dbA "a" "b" 7 140 140 141 (by decide)

end Loyalty
